import Mathlib

/-!
Verification of the gta3sc compiler specification against its sources.

The development shallowly embeds two areas of the code base:

* the `SWITCH` control-flow lowering (the multi-segment
  `SWITCH_START` / `SWITCH_CONTINUED` emission) together with the
  integer-width selection of the emitter; the lowering pass itself is not
  among the visible sources (only its codegen test `switch_sa.sc` is), so
  those definitions are modelled from the specification and checked
  against the concrete expectations pinned by the test;
* the diagnostics and option machinery of `program.hpp`
  (`ProgramContext::error`, `warning`, `fatal_error`, `has_error`,
  `supported_or_fatal`, `format_error`, `Options::get_header`,
  `Options::define` / `undefine` / `is_defined`), which is translated
  directly from the source.
-/

namespace Gta3sc

/-! ### Switch lowering -/

/-- Labels of the lowered IR are identified by their mangling sequence
number (the `N` of `MAIN_N` in the IR2 output). -/
abbrev Label := Nat

/-- A lowered switch table: the collected `CASE` value/label pairs in
source order, the optional `DEFAULT` body label, and the label just past
the switch (the `BREAK` target). Mirrors the spec's Switch Table record;
duplicate-case rejection and `switch_case_limit` are validated before the
table is built and do not affect the emission shape. -/
structure SwitchTable where
  cases : List (Int × Label)
  defaultLabel : Option Label
  endLabel : Label
deriving DecidableEq

/-- The two instruction shapes of the lowered switch: `SWITCH_START`
carries the case count, the default label and seven value/label slots;
`SWITCH_CONTINUED` carries nine further slots. The discriminant variable
operand of `SWITCH_START` is threaded through unchanged by the lowerer
and is omitted from the model. -/
inductive SwitchInstr where
  | start (nCases : Nat) (defaultLabel : Label) (slots : List (Int × Label))
  | continued (slots : List (Int × Label))
deriving DecidableEq

def SwitchInstr.slots : SwitchInstr → List (Int × Label)
  | .start _ _ s => s
  | .continued s => s

def SwitchInstr.isContinued : SwitchInstr → Bool
  | .continued _ => true
  | .start _ _ _ => false

def SwitchInstr.isStart : SwitchInstr → Bool
  | .start _ _ _ => true
  | .continued _ => false

/-- The default label carried by the `SWITCH_START` heading a lowered
sequence, when the sequence indeed starts with a `SWITCH_START`. -/
def startDefaultLabel : List SwitchInstr → Option Label
  | SwitchInstr.start _ d _ :: _ => some d
  | _ => Option.none

/-- Case slots are ordered by their case value. -/
def caseLE (a b : Int × Label) : Prop := a.1 ≤ b.1

instance : DecidableRel caseLE := fun a b => (Int.decLe a.1 b.1 : Decidable (a.1 ≤ b.1))

instance : IsTotal (Int × Label) caseLE := ⟨fun a b => Int.le_total a.1 b.1⟩

instance : IsTrans (Int × Label) caseLE := ⟨fun _ _ _ h h' => Int.le_trans h h'⟩

/-- The collected cases, sorted ascending by case value (the order the
codegen test `switch_sa.sc` pins for the emitted slots). -/
def sortCases (cs : List (Int × Label)) : List (Int × Label) :=
  List.insertionSort caseLE cs

/-- Pad a slot list to `width` entries with sentinel `(-1, e)` pairs,
`e` being the end-label (reused as default when no `DEFAULT` is given). -/
def padSlots (slots : List (Int × Label)) (width : Nat) (e : Label) :
    List (Int × Label) :=
  slots ++ List.replicate (width - slots.length) ((-1 : Int), e)

/-- Split a slot list into chunks of nine, the capacity of one
`SWITCH_CONTINUED` instruction. -/
def chunk9 (l : List (Int × Label)) : List (List (Int × Label)) :=
  match l with
  | [] => []
  | x :: xs => (x :: xs.take 8) :: chunk9 (xs.drop 8)
termination_by l.length
decreasing_by simp [List.length_drop]; omega

/-- Modelled from the spec: the control-flow lowerer's `SWITCH` emission
is not among the sources (only its codegen test `switch_sa.sc` is).
Per the spec, the lowerer sorts the collected cases ascending by value,
emits one `SWITCH_START` with the case count, the default label (the
`DEFAULT` body start, else the end-label) and the first seven slots,
then one `SWITCH_CONTINUED` per further chunk of nine slots, padding the
final instruction with sentinel `(-1, end-label)` pairs until full. -/
def lowerSwitch (t : SwitchTable) : List SwitchInstr :=
  let sorted := sortCases t.cases
  SwitchInstr.start t.cases.length (t.defaultLabel.getD t.endLabel)
      (padSlots (sorted.take 7) 7 t.endLabel)
    :: (chunk9 (sorted.drop 7)).map
        (fun c => SwitchInstr.continued (padSlots c 9 t.endLabel))

/-- Number of `SWITCH_CONTINUED` instructions the lowering emits. -/
def numContinued (t : SwitchTable) : Nat :=
  (chunk9 ((sortCases t.cases).drop 7)).length

/-- The first block of `switch_sa.sc`: cases 100, 200, 300, 50 (bodies at
labels `MAIN_1` … `MAIN_4`), a `DEFAULT` at `MAIN_5`, end-label `MAIN_6`. -/
def exTable4 : SwitchTable :=
  { cases := [(100, 1), (200, 2), (300, 3), (50, 4)]
    defaultLabel := some 5
    endLabel := 6 }

/-- The second block of `switch_sa.sc`: cases 100, 200, 50 (bodies at
`MAIN_7` … `MAIN_9`), no `DEFAULT`, end-label `MAIN_10`. -/
def exTable3 : SwitchTable :=
  { cases := [(100, 7), (200, 8), (50, 9)]
    defaultLabel := Option.none
    endLabel := 10 }

/-- The third block of `switch_sa.sc`: cases 100 … 900 (bodies at
`MAIN_11` … `MAIN_19`), no `DEFAULT`, end-label `MAIN_20`. -/
def exTable9 : SwitchTable :=
  { cases := [(100, 11), (200, 12), (300, 13), (400, 14), (500, 15),
              (600, 16), (700, 17), (800, 18), (900, 19)]
    defaultLabel := Option.none
    endLabel := 20 }

example : lowerSwitch exTable4 =
    [SwitchInstr.start 4 5
      [(50, 4), (100, 1), (200, 2), (300, 3), (-1, 6), (-1, 6), (-1, 6)]] := by
  simp [lowerSwitch, chunk9, sortCases, padSlots, exTable4, caseLE]

example : lowerSwitch exTable3 =
    [SwitchInstr.start 3 10
      [(50, 9), (100, 7), (200, 8), (-1, 10), (-1, 10), (-1, 10), (-1, 10)]] := by
  simp [lowerSwitch, chunk9, sortCases, padSlots, exTable3, caseLE]

example : lowerSwitch exTable9 =
    [SwitchInstr.start 9 20
      [(100, 11), (200, 12), (300, 13), (400, 14), (500, 15), (600, 16), (700, 17)],
     SwitchInstr.continued
      [(800, 18), (900, 19), (-1, 20), (-1, 20), (-1, 20), (-1, 20), (-1, 20),
       (-1, 20), (-1, 20)]] := by
  simp [lowerSwitch, chunk9, sortCases, padSlots, exTable9, caseLE]

/-! ### Lemmas about the switch lowering -/

theorem chunk9_length (l : List (Int × Label)) :
    (chunk9 l).length = (l.length + 8) / 9 := by
  induction l using chunk9.induct with
  | case1 => simp [chunk9]
  | case2 x xs ih =>
    rw [chunk9]
    simp only [List.length_cons, List.length_drop] at *
    omega

theorem sortCases_length (cs : List (Int × Label)) :
    (sortCases cs).length = cs.length :=
  List.length_insertionSort caseLE cs

theorem padSlots_length {l : List (Int × Label)} {w : Nat} (e : Label)
    (h : l.length ≤ w) : (padSlots l w e).length = w := by
  simp [padSlots]; omega

theorem padSlots_full {l : List (Int × Label)} {w : Nat} (e : Label)
    (h : w ≤ l.length) : padSlots l w e = l := by
  simp [padSlots, Nat.sub_eq_zero_of_le h]

theorem chunk9_mem_length {l : List (Int × Label)} :
    ∀ c ∈ chunk9 l, c.length ≤ 9 := by
  induction l using chunk9.induct with
  | case1 => intro c hc; simp [chunk9] at hc
  | case2 x xs ih =>
    intro c hc
    rw [chunk9] at hc
    rcases List.mem_cons.mp hc with h | h
    · subst h; simp [List.length_take]
    · exact ih c h

theorem chunk9_flatten_pad (e : Label) (l : List (Int × Label)) :
    ((chunk9 l).map (fun c => padSlots c 9 e)).flatten
      = l ++ List.replicate (9 * (chunk9 l).length - l.length) ((-1 : Int), e) := by
  induction l using chunk9.induct with
  | case1 => simp [chunk9]
  | case2 x xs ih =>
    rw [chunk9]
    have hk := chunk9_length (xs.drop 8)
    simp only [List.length_drop] at hk ih
    rw [List.map_cons, List.flatten_cons, ih]
    simp only [List.length_cons]
    by_cases h8 : 8 ≤ xs.length
    · rw [padSlots_full e (by simp [List.length_take]; omega)]
      have hc : 9 * (chunk9 (xs.drop 8)).length - (xs.length - 8)
          = 9 * ((chunk9 (xs.drop 8)).length + 1) - (xs.length + 1) := by omega
      rw [hc, List.cons_append, ← List.append_assoc, List.take_append_drop,
        ← List.cons_append]
    · have hdrop : xs.drop 8 = [] := List.drop_eq_nil_of_le (by omega)
      have htake : xs.take 8 = xs := List.take_of_length_le (by omega)
      rw [hdrop, htake]
      simp only [chunk9, List.map_nil, List.flatten_nil, List.append_nil, padSlots,
        List.length_cons, List.length_nil]
      have hc : 9 - (xs.length + 1) = 9 * (0 + 1) - (xs.length + 1) := by omega
      rw [hc]
      simp

theorem filter_continued (t : SwitchTable) :
    ((lowerSwitch t).filter SwitchInstr.isContinued).length = numContinued t := by
  simp [lowerSwitch, numContinued, SwitchInstr.isContinued, List.filter_map,
    Function.comp_def]

theorem filter_start (t : SwitchTable) :
    ((lowerSwitch t).filter SwitchInstr.isStart).length = 1 := by
  simp [lowerSwitch, SwitchInstr.isStart, List.filter_map, Function.comp_def,
    SwitchInstr.isContinued]

theorem numContinued_eq (t : SwitchTable) :
    numContinued t = (t.cases.length - 7 + 8) / 9 := by
  rw [numContinued, chunk9_length]
  simp [sortCases_length]

theorem lowerSwitch_flatten (t : SwitchTable) :
    ((lowerSwitch t).map SwitchInstr.slots).flatten
      = sortCases t.cases
        ++ List.replicate (7 + 9 * numContinued t - t.cases.length)
            ((-1 : Int), t.endLabel) := by
  have hn : (sortCases t.cases).length = t.cases.length := sortCases_length t.cases
  rw [lowerSwitch]
  simp only [List.map_cons, List.flatten_cons, List.map_map, Function.comp_def,
    SwitchInstr.slots]
  rw [chunk9_flatten_pad]
  by_cases h7 : t.cases.length ≤ 7
  · have hdrop : (sortCases t.cases).drop 7 = [] :=
      List.drop_eq_nil_of_le (by omega)
    have htake : (sortCases t.cases).take 7 = sortCases t.cases :=
      List.take_of_length_le (by omega)
    rw [hdrop, htake]
    have hnc : numContinued t = 0 := by
      simp [numContinued, hdrop, chunk9]
    rw [hnc]
    simp only [chunk9, List.length_nil, List.map_nil, List.flatten_nil,
      List.append_nil, padSlots, hn]
    have hc : 7 - t.cases.length = 7 + 9 * 0 - t.cases.length := by omega
    rw [hc]
    simp
  · rw [padSlots_full t.endLabel (by simp [List.length_take]; omega)]
    have hk := chunk9_length ((sortCases t.cases).drop 7)
    simp only [List.length_drop, hn] at hk
    have hc : 9 * (chunk9 ((sortCases t.cases).drop 7)).length
          - ((sortCases t.cases).drop 7).length
        = 7 + 9 * numContinued t - t.cases.length := by
      simp only [List.length_drop, hn, numContinued]
      omega
    rw [hc, ← List.append_assoc, List.take_append_drop]

theorem lowerSwitch_slot_lengths (t : SwitchTable) :
    (lowerSwitch t).map (fun i => i.slots.length)
      = 7 :: List.replicate (numContinued t) 9 := by
  rw [lowerSwitch]
  simp only [List.map_cons, List.map_map, Function.comp_def, SwitchInstr.slots]
  rw [padSlots_length t.endLabel (by simp [List.length_take])]
  congr 1
  rw [List.eq_replicate_iff]
  refine ⟨by simp [numContinued], ?_⟩
  intro b hb
  rcases List.mem_map.mp hb with ⟨c, hc, rfl⟩
  exact padSlots_length t.endLabel (chunk9_mem_length c hc)

theorem lowerSwitch_default_none (t : SwitchTable)
    (h : t.defaultLabel = Option.none) :
    startDefaultLabel (lowerSwitch t) = some t.endLabel := by
  simp [lowerSwitch, startDefaultLabel, h]

/-! ### Claim theorems for the switch lowering -/

/-- C1: for every lowered switch with `n` collected cases, the lowering
emits exactly one `SWITCH_START` followed by exactly
`max(0, ceil((n - 7) / 9))` `SWITCH_CONTINUED` instructions — written
`(n - 7 + 8) / 9` over `Nat`, whose truncated subtraction makes the
`max(0, ·)` implicit; in particular the nine-case switch of
`switch_sa.sc` yields one `SWITCH_START` holding its first seven cases
and one `SWITCH_CONTINUED` holding the remaining two (plus sentinel
padding). -/
theorem switch_continued_count :
    (∀ t : SwitchTable,
        ((lowerSwitch t).filter SwitchInstr.isContinued).length
            = (t.cases.length - 7 + 8) / 9
        ∧ ((lowerSwitch t).filter SwitchInstr.isStart).length = 1)
    ∧ lowerSwitch exTable9 =
        [SwitchInstr.start 9 20
          [(100, 11), (200, 12), (300, 13), (400, 14), (500, 15), (600, 16),
           (700, 17)],
         SwitchInstr.continued
          [(800, 18), (900, 19), (-1, 20), (-1, 20), (-1, 20), (-1, 20), (-1, 20),
           (-1, 20), (-1, 20)]] := by
  refine ⟨fun t => ⟨?_, filter_start t⟩, ?_⟩
  · rw [filter_continued, numContinued_eq]
  · simp [lowerSwitch, chunk9, sortCases, padSlots, exTable9, caseLE]

/-- C2: every lowered switch starts with a `SWITCH_START` carrying the
case count, then the default label, then the case slots sorted ascending
by case value (a sorted permutation of the collected source-order cases),
each value paired with its own body label; on the first block of
`switch_sa.sc` (source order 100, 200, 300, 50 with a `DEFAULT`) this is
`n = 4`, default label `MAIN_5`, slots 50, 100, 200, 300 and three
sentinels. -/
theorem switch_start_sorted :
    (∀ t : SwitchTable,
        (lowerSwitch t).head? = some (SwitchInstr.start t.cases.length
            (t.defaultLabel.getD t.endLabel)
            (padSlots ((sortCases t.cases).take 7) 7 t.endLabel))
        ∧ List.Sorted caseLE (sortCases t.cases)
        ∧ (sortCases t.cases).Perm t.cases)
    ∧ lowerSwitch exTable4 =
        [SwitchInstr.start 4 5
          [(50, 4), (100, 1), (200, 2), (300, 3), (-1, 6), (-1, 6), (-1, 6)]] := by
  refine ⟨fun t => ⟨rfl, List.sorted_insertionSort caseLE t.cases,
    List.perm_insertionSort caseLE t.cases⟩, ?_⟩
  simp [lowerSwitch, chunk9, sortCases, padSlots, exTable4, caseLE]

/-- C3: in every lowered switch every instruction's slot array is full
(seven slots in `SWITCH_START`, nine in each `SWITCH_CONTINUED`), the
slots taken together are exactly the sorted cases followed by sentinel
`(-1, end-label)` pairs in every unused trailing slot, and when the
switch has no `DEFAULT` clause the default-label operand of
`SWITCH_START` is the switch's end-label. -/
theorem switch_padding_invariant (t : SwitchTable) :
    ((lowerSwitch t).map SwitchInstr.slots).flatten
        = sortCases t.cases
          ++ List.replicate (7 + 9 * numContinued t - t.cases.length)
              ((-1 : Int), t.endLabel)
    ∧ (lowerSwitch t).map (fun i => i.slots.length)
        = 7 :: List.replicate (numContinued t) 9
    ∧ (t.defaultLabel = Option.none →
        startDefaultLabel (lowerSwitch t) = some t.endLabel) :=
  ⟨lowerSwitch_flatten t, lowerSwitch_slot_lengths t, lowerSwitch_default_none t⟩

/-- C3 witness: the defaultless second block of `switch_sa.sc` reuses its
end-label `MAIN_10` as the default operand. -/
theorem switch_padding_invariant_witness :
    startDefaultLabel (lowerSwitch exTable3) = some 10 :=
  (switch_padding_invariant exTable3).2.2 rfl

/-! ### Integer operand widths -/

/-- The signed integer operand widths of the binary and IR2 emitters
(the `i8` / `i16` / `i32` suffixes of the IR2 output). -/
inductive IntWidth where
  | i8
  | i16
  | i32
deriving DecidableEq

/-- Widths ordered from narrowest to widest. -/
def widthRank : IntWidth → Nat
  | .i8 => 0
  | .i16 => 1
  | .i32 => 2

/-- Whether a signed width holds an integer value. -/
def fitsWidth (w : IntWidth) (v : Int) : Bool :=
  match w with
  | .i8 => decide (-128 ≤ v ∧ v ≤ 127)
  | .i16 => decide (-32768 ≤ v ∧ v ≤ 32767)
  | .i32 => decide (-2147483648 ≤ v ∧ v ≤ 2147483647)

/-- Modelled from the spec: the code generator's integer-width selection
is not among the sources (only the codegen test `switch_sa.sc` pinning it
is); per the spec, each integer literal is encoded in the smallest signed
width holding its value — `int8` for [-128, 127], else `int16` for
[-32768, 32767], else `int32`. -/
def chooseWidth (v : Int) : IntWidth :=
  if -128 ≤ v ∧ v ≤ 127 then .i8
  else if -32768 ≤ v ∧ v ≤ 32767 then .i16
  else .i32

/-- C4: the width chosen for an emitted integer literal holds the value
(whenever the value is representable at all) and is minimal among all
widths that hold it; in particular the `switch_sa.sc` case values 50 and
100 emit as `i8`, 200 and 900 as `i16`, and the sentinel -1 as `i8`. -/
theorem int_width_minimal :
    (∀ v : Int, fitsWidth IntWidth.i32 v = true →
        fitsWidth (chooseWidth v) v = true)
    ∧ (∀ (v : Int) (w : IntWidth), fitsWidth w v = true →
        widthRank (chooseWidth v) ≤ widthRank w)
    ∧ chooseWidth 50 = IntWidth.i8 ∧ chooseWidth 100 = IntWidth.i8
    ∧ chooseWidth 200 = IntWidth.i16 ∧ chooseWidth 900 = IntWidth.i16
    ∧ chooseWidth (-1) = IntWidth.i8 := by
  refine ⟨?_, ?_, by decide, by decide, by decide, by decide, by decide⟩
  · intro v hv
    simp only [fitsWidth, chooseWidth, decide_eq_true_eq] at *
    split_ifs with h1 h2 <;> simp only [fitsWidth, decide_eq_true_eq] <;> omega
  · intro v w hw
    cases w <;>
      simp only [fitsWidth, chooseWidth, decide_eq_true_eq] at hw ⊢ <;>
      split_ifs <;> simp [widthRank]

/-- C4 witness: 300 is representable, so its chosen width holds it and
is no wider than `i32`. -/
theorem int_width_minimal_witness :
    fitsWidth (chooseWidth 300) 300 = true
    ∧ widthRank (chooseWidth 300) ≤ widthRank IntWidth.i32 :=
  ⟨int_width_minimal.1 300 (by decide),
   int_width_minimal.2.1 300 IntWidth.i32 (by decide)⟩

/-! ### Diagnostics (`ProgramContext` of `program.hpp`) -/

/-- The mutable diagnostic state of a `ProgramContext`: the three atomic
counters `error_count`, `warn_count`, `fatal_count` and the messages
written to stderr by `ProgramContext::puts`. -/
structure ProgramState where
  error_count : Nat := 0
  warn_count : Nat := 0
  fatal_count : Nat := 0
  output : List String := []

/-- A fresh `ProgramContext`: all counters start at zero. -/
def initState : ProgramState := {}

/-- Whether a diagnostic member returns normally or throws
`HaltJobException` (the `throw` in `ProgramContext::fatal_error`,
which is declared `[[noreturn]]`). -/
inductive Outcome where
  | normal
  | halt
deriving DecidableEq

namespace ProgramContext

/-- `ProgramContext::has_error`: true when any error or fatal error was
recorded. -/
def has_error (s : ProgramState) : Bool :=
  s.error_count > 0 || s.fatal_count > 0

/-- `ProgramContext::error`: bumps `error_count` and prints; the
"too many errors" cutoff present in the source is commented out, so the
member returns normally regardless of the current count. -/
def error (s : ProgramState) (msg : String) : ProgramState :=
  { s with error_count := s.error_count + 1, output := s.output ++ [msg] }

/-- `ProgramContext::note`: prints without touching any counter. -/
def note (s : ProgramState) (msg : String) : ProgramState :=
  { s with output := s.output ++ [msg] }

/-- `ProgramContext::warning`: bumps `warn_count` and prints. -/
def warning (s : ProgramState) (msg : String) : ProgramState :=
  { s with warn_count := s.warn_count + 1, output := s.output ++ [msg] }

/-- `ProgramContext::fatal_error`: bumps `fatal_count`, prints, and then
throws `HaltJobException`; the state below is the one observable at the
throw. -/
def fatal_error (s : ProgramState) (msg : String) : ProgramState :=
  { s with fatal_count := s.fatal_count + 1, output := s.output ++ [msg] }

/-- The four diagnostic members of `ProgramContext`. -/
inductive DiagKind where
  | note
  | warning
  | error
  | fatal
deriving DecidableEq

/-- Dispatching one diagnostic: the resulting state plus whether control
returns to the caller (`normal`) or unwinds via `HaltJobException`
(`halt`). Only `fatal_error` is `[[noreturn]]` in the source. -/
def emitDiag : DiagKind → String → ProgramState → ProgramState × Outcome
  | DiagKind.note, m, s => (note s m, Outcome.normal)
  | DiagKind.warning, m, s => (warning s m, Outcome.normal)
  | DiagKind.error, m, s => (error s m, Outcome.normal)
  | DiagKind.fatal, m, s => (fatal_error s m, Outcome.halt)

/-- The slice of the command-database `Command` record the availability
check reads: the per-version `supported` flag. -/
structure Command where
  supported : Bool
deriving DecidableEq

/-- `ProgramContext::supported_or_fatal` (the `optional<const Command&>`
overload): when the lookup failed or the command is unsupported it calls
`fatal_error`, otherwise it returns the command unchanged. -/
def supported_or_fatal (s : ProgramState) (opt : Option Command)
    (name : String) : ProgramState × Outcome × Option Command :=
  match opt with
  | Option.none =>
      (fatal_error s ("command " ++ name ++ " undefined or unsupported"),
       Outcome.halt, Option.none)
  | some c =>
      if !c.supported then
        (fatal_error s ("command " ++ name ++ " undefined or unsupported"),
         Outcome.halt, Option.none)
      else (s, Outcome.normal, some c)

/-- Modelled from the spec: the semantic-analyzer pass that validates
each command reference against the database is not among the sources
(only its helper `supported_or_fatal`, the diagnostics machinery and the
`pedantic` flag are); per the spec, a reference to a command present in
the database with `supported = false` "triggers a fatal diagnostic in
non-pedantic mode and a normal error under `pedantic`". -/
def checkSupported (pedantic : Bool) (s : ProgramState) (c : Command)
    (name : String) : ProgramState × Outcome :=
  if c.supported then (s, Outcome.normal)
  else if pedantic then emitDiag DiagKind.error ("unsupported command " ++ name) s
  else emitDiag DiagKind.fatal ("unsupported command " ++ name) s

/-- A job that emits a sequence of warnings. -/
def runWarnings (s : ProgramState) (msgs : List String) : ProgramState :=
  msgs.foldl (fun st m => (emitDiag DiagKind.warning m st).1) s

/-- C5: a reference to a command that exists in the database with
`supported = false` raises a fatal diagnostic (bumping the fatal counter
and halting the job) when `pedantic` is off, and a normal error (bumping
the error counter, analysis continuing) when `pedantic` is on; the
in-source helper `supported_or_fatal` realises the fatal path. -/
theorem unsupported_command_diag (pedantic : Bool) (s : ProgramState)
    (c : Command) (name : String) (h : c.supported = false) :
    (checkSupported pedantic s c name).2
        = (if pedantic then Outcome.normal else Outcome.halt)
    ∧ (checkSupported pedantic s c name).1.error_count
        = s.error_count + (if pedantic then 1 else 0)
    ∧ (checkSupported pedantic s c name).1.fatal_count
        = s.fatal_count + (if pedantic then 0 else 1)
    ∧ (supported_or_fatal s (some c) name).2.1 = Outcome.halt := by
  cases pedantic <;>
    simp [checkSupported, supported_or_fatal, emitDiag, error, fatal_error, h]

/-- C5 witness: an unsupported command errors under `pedantic` and is
fatal otherwise. -/
theorem unsupported_command_diag_witness :
    (checkSupported true initState ⟨false⟩ "SET_CHAR_MONEY").2 = Outcome.normal
    ∧ (checkSupported false initState ⟨false⟩ "SET_CHAR_MONEY").2
        = Outcome.halt := by
  have h1 := unsupported_command_diag true initState ⟨false⟩ "SET_CHAR_MONEY" rfl
  have h2 := unsupported_command_diag false initState ⟨false⟩ "SET_CHAR_MONEY" rfl
  exact ⟨h1.1, h2.1⟩

/-- C6: a diagnostic halts the job exactly when it is a fatal error:
`fatal_error` bumps the fatal counter, prints and unwinds, while `error`
bumps the error counter, prints and returns normally from any state —
there is no "too many errors" cutoff (it is commented out in the
source). -/
theorem fatal_halts_iff (k : DiagKind) (m : String) (s : ProgramState) :
    ((emitDiag k m s).2 = Outcome.halt ↔ k = DiagKind.fatal)
    ∧ (emitDiag DiagKind.fatal m s).1.fatal_count = s.fatal_count + 1
    ∧ (emitDiag DiagKind.fatal m s).1.output = s.output ++ [m]
    ∧ (emitDiag DiagKind.error m s).2 = Outcome.normal
    ∧ (emitDiag DiagKind.error m s).1.error_count = s.error_count + 1
    ∧ (emitDiag DiagKind.error m s).1.output = s.output ++ [m] := by
  refine ⟨?_, by simp [emitDiag, fatal_error], by simp [emitDiag, fatal_error],
    by simp [emitDiag, error], by simp [emitDiag, error], by simp [emitDiag, error]⟩
  cases k <;> simp [emitDiag]

theorem runWarnings_counts (s : ProgramState) (msgs : List String) :
    (runWarnings s msgs).error_count = s.error_count
    ∧ (runWarnings s msgs).fatal_count = s.fatal_count := by
  induction msgs generalizing s with
  | nil => exact ⟨rfl, rfl⟩
  | cons m ms ih =>
    simpa [runWarnings, emitDiag, warning] using
      ih { s with warn_count := s.warn_count + 1, output := s.output ++ [m] }

/-- C7: compilation is reported as failed (`has_error` true) exactly when
`error_count + fatal_count > 0`; warnings only bump the warning counter,
so a run emitting any number of warnings from a fresh context still
succeeds. -/
theorem has_error_iff (s : ProgramState) (msgs : List String) :
    (has_error s = true ↔ 0 < s.error_count + s.fatal_count)
    ∧ (runWarnings s msgs).error_count = s.error_count
    ∧ (runWarnings s msgs).fatal_count = s.fatal_count
    ∧ has_error (runWarnings initState msgs) = false := by
  refine ⟨?_, (runWarnings_counts s msgs).1, (runWarnings_counts s msgs).2, ?_⟩
  · simp [has_error]
  · have h := runWarnings_counts initState msgs
    simp only [has_error, h.1, h.2]
    decide

end ProgramContext

/-! ### Message formatting (`format_error` of `program.hpp`) -/

/-- The `fmt` right-alignment used for the caret: pad on the left with
spaces to the requested field width. -/
def padLeftTo (s : String) (w : Nat) : String :=
  String.mk (List.replicate (w - s.length) ' ') ++ s

/-- `format_error` of `program.hpp`: a nullable kind string, an optional
text stream (modelled by its `get_line` accessor), a nullable filename
(`gta3sc` standing in when absent), a line and column (0 meaning
unknown), and the formatted message body. -/
def format_error (type : Option String) (stream : Option (Nat → String))
    (filename : Option String) (lineno colno : Nat) (msg : String) : String :=
  let m0 := match filename with
    | some f => f ++ ":"
    | Option.none => "gta3sc:"
  let m1 := if lineno ≠ 0 then m0 ++ toString lineno ++ ":" else m0
  let m2 := if lineno ≠ 0 ∧ colno ≠ 0 then m1 ++ toString colno ++ ":" else m1
  let m3 := if m2.length ≠ 0 then m2 ++ " " else m2
  let m4 := match type with
    | some t => m3 ++ t ++ ": "
    | Option.none => m3
  let m5 := m4 ++ msg
  match stream with
  | some getLine =>
      if lineno ≠ 0 then
        m5 ++ "\n " ++ getLine lineno ++ "\n " ++ padLeftTo "^" colno
      else m5
  | Option.none => m5

/-- C8: with a known filename, non-zero line and column and an available
text stream, `format_error` produces exactly
`file:line:col: kind: message`, a newline, a space and the source line,
then a newline and `col - 1` spaces after the leading space so that the
caret sits under column `col` of the quoted line. -/
theorem format_error_full (kind f msg : String) (gl : Nat → String)
    (l c : Nat) (hl : l ≠ 0) (hc : c ≠ 0) :
    format_error (some kind) (some gl) (some f) l c msg
      = f ++ ":" ++ toString l ++ ":" ++ toString c ++ ": " ++ kind ++ ": " ++ msg
        ++ "\n " ++ gl l ++ "\n "
        ++ String.mk (List.replicate (c - 1) ' ') ++ "^" := by
  have hcol : (":" : String).length = 1 := rfl
  have hlen : (f ++ ":" ++ toString l ++ ":" ++ toString c ++ ":").length ≠ 0 := by
    simp only [String.length_append, hcol]
    omega
  simp only [format_error, padLeftTo, hl, hc, ne_eq, not_false_iff, and_self,
    if_true, ite_true, hlen]
  have h1 : ("^" : String).length = 1 := rfl
  rw [h1]
  simp [String.append_assoc]

/-- C8 witness: a concrete diagnostic at line 2, column 3. -/
theorem format_error_full_witness :
    format_error (some "error") (some fun _ => "WAIT 100") (some "switch.sc")
        2 3 "boom"
      = "switch.sc:2:3: error: boom\n WAIT 100\n   ^" := by
  rw [format_error_full "error" "switch.sc" "boom" (fun _ => "WAIT 100") 2 3
    (by decide) (by decide)]
  rfl

/-! ### Options (`Options` of `program.hpp`) -/

/-- `Options::HeaderVersion`. -/
inductive HeaderVersion where
  | None
  | GTA3
  | GTAVC
  | GTASA
deriving DecidableEq

/-- The target header enum (`CompiledScmHeader::Version` or
`DecompiledScmHeader::Version`), whose members `Options::get_header`
selects. -/
inductive ScmVersion where
  | Liberty
  | Miami
  | SanAndreas
deriving DecidableEq

/-- The slice of the `Options` record the claims read: the `pedantic`
flag, the `header` version, and the private `defines` map maintained by
`define` / `undefine` / `is_defined` (a `transparent_map` with unique
keys, modelled as a partial lookup function). -/
@[ext]
structure Options where
  pedantic : Bool := false
  header : HeaderVersion := HeaderVersion.None
  defines : String → Option String := fun _ => Option.none

namespace Options

/-- `Options::get_header`: the source hits `Unreachable()` when
`header == HeaderVersion::None` (documented as undefined behaviour),
modelled by `Option.none`. -/
def get_header (o : Options) : Option ScmVersion :=
  match o.header with
  | HeaderVersion.None => Option.none
  | HeaderVersion.GTA3 => some ScmVersion.Liberty
  | HeaderVersion.GTAVC => some ScmVersion.Miami
  | HeaderVersion.GTASA => some ScmVersion.SanAndreas

/-- `Options::define`: `defines.emplace(symbol, value)` — `std::map`'s
`emplace` inserts only when the key is absent, so an existing binding is
kept. -/
def define (o : Options) (symbol value : String) : Options :=
  { o with defines := fun x =>
      if x = symbol then some ((o.defines symbol).getD value) else o.defines x }

/-- `Options::undefine`: erases the binding when present. -/
def undefine (o : Options) (symbol : String) : Options :=
  { o with defines := fun x =>
      if x = symbol then Option.none else o.defines x }

/-- `Options::is_defined`. -/
def is_defined (o : Options) (symbol : String) : Bool :=
  (o.defines symbol).isSome

end Options

/-- C9: for an `Options` value whose `header` is not `None`,
`get_header` maps `GTA3` to `Liberty`, `GTAVC` to `Miami` and `GTASA` to
`SanAndreas` (the `None` case is excluded, the source behaviour being
undefined there). -/
theorem get_header_version (o : Options) (h : o.header ≠ HeaderVersion.None) :
    o.get_header = some (match o.header with
      | HeaderVersion.GTAVC => ScmVersion.Miami
      | HeaderVersion.GTASA => ScmVersion.SanAndreas
      | _ => ScmVersion.Liberty) := by
  cases hv : o.header <;> simp [Options.get_header, hv] at h ⊢

/-- C9 witness: the `gta3` config selects the Liberty header. -/
theorem get_header_version_witness :
    Options.get_header { header := HeaderVersion.GTA3 } = some ScmVersion.Liberty := by
  rw [get_header_version { header := HeaderVersion.GTA3 } (by decide)]

/-- C10: after `define(s, v1)` the symbol is defined; a later
`define(s, v2)` leaves the stored binding unchanged (`emplace` does not
overwrite), so it equals `define(s, v1)` alone — in particular a fresh
symbol keeps the value `v1`; only `undefine(s)` removes the symbol,
after which `is_defined(s)` is false. -/
theorem define_is_sticky (o : Options) (s v1 v2 : String) :
    (o.define s v1).is_defined s = true
    ∧ (o.define s v1).define s v2 = o.define s v1
    ∧ (o.is_defined s = false → (o.define s v1).defines s = some v1)
    ∧ (o.undefine s).is_defined s = false := by
  refine ⟨by simp [Options.define, Options.is_defined], ?_, ?_,
    by simp [Options.undefine, Options.is_defined]⟩
  · unfold Options.define
    congr 1
    funext x
    by_cases hx : x = s <;> simp [hx]
  · intro h
    rw [Options.is_defined] at h
    have hn : o.defines s = Option.none := by
      cases hd : o.defines s <;> simp_all
    simp [Options.define, hn]

/-- C10 witness: defining a fresh symbol stores its value and marks it
defined. -/
theorem define_is_sticky_witness :
    (Options.define {} "MIAMI" "1").is_defined "MIAMI" = true
    ∧ (Options.define {} "MIAMI" "1").defines "MIAMI" = some "1" := by
  have h := define_is_sticky {} "MIAMI" "1" "2"
  exact ⟨h.1, h.2.2.1 rfl⟩

end Gta3sc
